import Mathlib

/-
Verification of the whitenoise-core differential-privacy library.

Each section shallowly embeds one part of the Rust source:

* `Validator`  — validator-rust/src/components/laplace_mechanism.rs
  (`Component::propagate_property` and the `Accuracy` impl for
  `proto::LaplaceMechanism`).
* `DirectApi`  — ffi-rust/src/direct_api.rs (the five C ABI entry points).
* `Snapping`   — runtime-rust/src/components/mechanisms.rs
  (`Evaluable for proto::SnappingMechanism`), together with the shape
  helpers `get_num_columns` and `to_nd` from runtime-rust/src/utilities/mod.rs.
* `Lambda`     — `get_closest_multiple_of_lambda` from
  runtime-rust/src/utilities/mod.rs, on the (sign, unbiased exponent,
  mantissa) view of an IEEE-754 double provided by the ieee754 crate.
* `Bits`       — `f64_to_binary` / `binary_to_f64` from
  runtime-rust/src/utilities/mod.rs, with a 0/1 character of the binary
  string modelled as a boolean.
* `RowWise`    — `component_row_wise_min` / `component_row_wise_max` from
  runtime-rust/src/components.rs.
* `Impute`     — `impute_float_uniform_arrayd` from
  runtime-rust/src/components/impute.rs.

Machine floats are modelled either bit-exactly (as sign/exponent/mantissa
integers, where the source manipulates bits) or as exact rationals (where
the source only moves values around without rounding-sensitive
arithmetic).  Functions of this repository that are called from the
embedded files but whose definitions are not under src/ are modelled from
the natural-language specification and carry a doc comment saying so.
-/

namespace Validator

/-- Privacy usage, modelled from the spec: either pure with epsilon or
approximate with epsilon and delta; a pure usage is the approximate one
with delta zero. -/
structure PrivacyUsage where
  epsilon : ℚ
  delta : ℚ
deriving DecidableEq

/-- Modelled from the spec: composition of privacy usages is additive on
both parameters.  The Add impl for proto::PrivacyUsage is not under src/. -/
def addUsage (l r : PrivacyUsage) : PrivacyUsage :=
  ⟨l.epsilon + r.epsilon, l.delta + r.delta⟩

/-- Element type of an array, from validator base::DataType. -/
inductive DataType
  | bool
  | i64
  | f64
  | str
deriving DecidableEq

/-- Fields of proto::PrivacyDefinition read by the embedded code. -/
structure PrivacyDefinition where
  protect_floating_point : Bool
  protect_elapsed_time : Bool
  group_size : Nat
  strict_parameter_checks : Bool
deriving DecidableEq

deriving instance DecidableEq for Except

/-- Aggregator metadata attached to an array property.  The dynamic call
aggregator.component.compute_sensitivity(privacy_definition, properties,
KNorm(1)) is embedded as the stored result `sensitivity_result` (an f64
array given as a list of columns, or an error). -/
structure Aggregator where
  sensitivity_result : Except String (List (List ℚ))
  lipschitz_constant : List ℚ
deriving DecidableEq

/-- Fields of the array variant of base::ValueProperties read by the
embedded code. -/
structure ArrayProperties where
  data_type : DataType
  releasable : Bool
  aggregator : Option Aggregator
  num_records : Option Int
  c_stability : List ℚ
deriving DecidableEq

/-- Value properties: either array properties or one of the other
variants (jagged, dataframe, ...), which the embedded code only ever
rejects via `.array()`. -/
inductive ValueProperties
  | array (p : ArrayProperties)
  | other
deriving DecidableEq

/-- Embeds the `.array()` projection on ValueProperties. -/
def ValueProperties.arrayProp : ValueProperties → Except String ArrayProperties
  | .array p => .ok p
  | .other => .error "value must be an array"

/-- Warnable from validator lib.rs: a value together with non-fatal
warnings. -/
structure Warnable (α : Type) where
  value : α
  warnings : List String
deriving DecidableEq

/-- Embeds the privacy-usage fold
`self.privacy_usage.iter().cloned().map(Ok).fold1(|l, r| l? + r?)`:
an empty usage list is the error "privacy_usage: must be defined". -/
def foldUsage : List PrivacyUsage → Except String PrivacyUsage
  | [] => .error "privacy_usage: must be defined"
  | u :: rest => .ok (rest.foldl addUsage u)

/-- Modelled from the spec: the strict parameter check warns when epsilon
exceeds a fixed bound; the spec names the bound but gives no value, so any
fixed positive rational stands in.  privacy_usage_check is not under src/. -/
def strictEpsilonBound : ℚ := 1

/-- Modelled from the spec: privacy_usage_check rejects epsilon below or
equal to zero and warns on epsilon above the strict bound when strict
checks are enabled.  The function itself is not under src/. -/
def privacy_usage_check (usage : PrivacyUsage) (_num_records : Option Int)
    (strict : Bool) : Except String (List String) :=
  if usage.epsilon ≤ 0 then
    .error "epsilon must be positive"
  else
    .ok (if strict && decide (strictEpsilonBound < usage.epsilon) then
      ["epsilon exceeds the strict parameter check bound"] else [])

/-- Embeds the lipschitz scaling step of propagate_property: when any
lipschitz constant differs from one, each sensitivity column is scaled by
the matching constant. -/
def scaleSensitivity (sens : List (List ℚ)) (lipschitz : List ℚ) :
    List (List ℚ) :=
  if lipschitz.any (fun v => decide (v ≠ 1)) then
    (sens.zip lipschitz).map (fun p => p.1.map (fun v => v * p.2))
  else sens

/-- Embeds `Component::propagate_property` for proto::LaplaceMechanism
(validator-rust/src/components/laplace_mechanism.rs, lines 15-77).
`data` is the entry of the node properties map at key "data". -/
def laplacePropagateProperty
    (privacy_definition : Option PrivacyDefinition)
    (data : Option ValueProperties)
    (privacy_usage : List PrivacyUsage) :
    Except String (Warnable ValueProperties) := do
  let pd ← match privacy_definition with
    | none => Except.error "privacy_definition must be defined"
    | some pd => Except.ok pd
  if pd.protect_floating_point then
    Except.error "Floating-point protections are enabled. The laplace mechanism is susceptible to floating-point attacks."
  else if pd.group_size = 0 then
    Except.error "group size must be greater than zero"
  else do
    let dataProp ← match data with
      | none => Except.error "data: missing"
      | some v => v.arrayProp
    if dataProp.data_type ≠ DataType.f64 then
      Except.error "data: atomic type must be float"
    else do
      let aggregator ← match dataProp.aggregator with
        | none => Except.error "aggregator: missing"
        | some a => Except.ok a
      let sens ← aggregator.sensitivity_result
      let _sensitivity_values := scaleSensitivity sens aggregator.lipschitz_constant
      let usage ← foldUsage privacy_usage
      let warnings ← privacy_usage_check usage dataProp.num_records
        pd.strict_parameter_checks
      Except.ok ⟨ValueProperties.array
        { dataProp with releasable := true, aggregator := none }, warnings⟩

end Validator

namespace DirectApi

/-- Embeds the Rust `.unwrap()` on the C ABI boundary: an Ok value is
returned, an Err aborts the process, modelled as `none`. -/
def unwrapAbort : Except String α → Option α
  | .ok a => some a
  | .error _ => none

/-- Embeds `laplace_mechanism` from ffi-rust/src/direct_api.rs.  The
runtime kernel `mechanisms::laplace_mechanism` lives in
runtime-rust/src/utilities/mechanisms.rs, which is not under src/, so the
kernel is passed as the function `kernel`; the ABI wrapper forwards
epsilon, sensitivity and enforce_constant_time to it unchanged and adds
the resulting noise to `value`. -/
def laplace_mechanism (kernel : ℚ → ℚ → Bool → Except String ℚ)
    (value epsilon sensitivity : ℚ) (enforce_constant_time : Bool) :
    Option ℚ :=
  (unwrapAbort (kernel epsilon sensitivity enforce_constant_time)).map
    (fun noise => value + noise)

/-- Embeds `gaussian_mechanism` from ffi-rust/src/direct_api.rs;
the runtime kernel is passed as `kernel` as in `laplace_mechanism`. -/
def gaussian_mechanism
    (kernel : ℚ → ℚ → ℚ → Bool → Bool → Except String ℚ)
    (value epsilon delta sensitivity : ℚ)
    (analytic enforce_constant_time : Bool) : Option ℚ :=
  (unwrapAbort
    (kernel epsilon delta sensitivity analytic enforce_constant_time)).map
    (fun noise => value + noise)

/-- Two’s-complement reduction of an integer into the i64 range:
Rust release builds compute an overflowing i64 sum by wrapping (debug
builds panic on overflow instead). -/
def wrapI64 (n : Int) : Int :=
  (n + 9223372036854775808) % 18446744073709551616 - 9223372036854775808

/-- Embeds `simple_geometric_mechanism` from ffi-rust/src/direct_api.rs;
the runtime kernel is passed as `kernel`.  Values are i64: the sum
`value + noise` is the wrapping two’s-complement i64 addition of
release builds (debug builds panic when it overflows; inside the i64
range both agree with the exact sum). -/
def simple_geometric_mechanism
    (kernel : ℚ → ℚ → Int → Int → Bool → Except String Int)
    (value : Int) (epsilon sensitivity : ℚ) (min max : Int)
    (enforce_constant_time : Bool) : Option Int :=
  (unwrapAbort
    (kernel epsilon sensitivity min max enforce_constant_time)).map
    (fun noise => wrapI64 (value + noise))

/-- Embeds `snapping_mechanism` from ffi-rust/src/direct_api.rs: the
value is passed into the kernel together with `none` for the binding
probability, and the kernel result is returned unchanged (no addition at
the ABI layer). -/
def snapping_mechanism
    (kernel : ℚ → ℚ → ℚ → ℚ → ℚ → Option ℚ → Bool → Except String ℚ)
    (value epsilon sensitivity min max : ℚ)
    (enforce_constant_time : Bool) : Option ℚ :=
  unwrapAbort
    (kernel value epsilon sensitivity min max none enforce_constant_time)

/-- Embeds `snapping_mechanism_binding` from ffi-rust/src/direct_api.rs:
like `snapping_mechanism` but passing `some binding_probability`. -/
def snapping_mechanism_binding
    (kernel : ℚ → ℚ → ℚ → ℚ → ℚ → Option ℚ → Bool → Except String ℚ)
    (value epsilon sensitivity min max binding_probability : ℚ)
    (enforce_constant_time : Bool) : Option ℚ :=
  unwrapAbort (kernel value epsilon sensitivity min max
    (some binding_probability) enforce_constant_time)

end DirectApi

namespace LaplaceAccuracy

/-- Embeds the per-column arithmetic of `privacy_usage_to_accuracy` for
proto::LaplaceMechanism (validator-rust/src/components/laplace_mechanism.rs,
lines 155-185): accuracy value = (1/alpha).ln() * (sensitivity / epsilon).
The factor ln(1/alpha) is irrational, and both conversion directions
compute it from the same alpha, so it is abstracted as the parameter
`lnInvAlpha`. -/
def privacy_usage_to_accuracy (lnInvAlpha sensitivity epsilon : ℚ) : ℚ :=
  lnInvAlpha * (sensitivity / epsilon)

/-- Embeds the per-column arithmetic of `accuracy_to_privacy_usage` for
proto::LaplaceMechanism (validator-rust/src/components/laplace_mechanism.rs,
lines 124-153): epsilon = (1/alpha).ln() * (sensitivity / accuracy), with
delta 0. -/
def accuracy_to_privacy_usage (lnInvAlpha sensitivity accuracy : ℚ) : ℚ :=
  lnInvAlpha * (sensitivity / accuracy)

end LaplaceAccuracy

namespace RowWise

/-- Array values handled by component_row_wise_min and
component_row_wise_max in runtime-rust/src/components.rs.  Rank-1 arrays
are modelled; f64 elements are modelled as exact rationals (min and max on
NaN-free doubles agree with the rational order). -/
inductive ArrayND
  | f64 (xs : List ℚ)
  | i64 (xs : List Int)
  | boolv (xs : List Bool)
  | str (xs : List String)
deriving DecidableEq

/-- Modelled from the spec: per-column argument arrays are broadcast when
of length one, and otherwise must match the target length.  This is the
rank-1 case of utilities::transformations::broadcast_map, which is not
under src/ (the spec: broadcast_map agrees with a naive double loop after
broadcasting). -/
def broadcastTo (xs : List α) (n : Nat) : Option (List α) :=
  if xs.length = n then some xs
  else match xs with
    | [x] => some (List.replicate n x)
    | _ => none

/-- Modelled from the spec: rank-1 broadcast_map maps the operator over
the two lists after broadcasting each to the longer length. -/
def broadcast_map (left right : List α) (op : α → α → β) :
    Except String (List β) :=
  let n := max left.length right.length
  match broadcastTo left n, broadcastTo right n with
  | some l, some r => .ok (List.zipWith op l r)
  | _, _ => .error "could not broadcast arguments"

/-- Embeds component_row_wise_min (runtime-rust/src/components.rs, lines
228-243).  The f64 arm applies l.min(r); the i64 arm applies
std::cmp::max(l, r) exactly as the source does. -/
def component_row_wise_min : ArrayND → ArrayND → Except String ArrayND
  | .f64 x, .f64 y => (broadcast_map x y (fun l r => min l r)).map .f64
  | .i64 x, .i64 y => (broadcast_map x y (fun l r => max l r)).map .i64
  | _, _ =>
    .error "Min: Either the argument types are mismatched or non-numeric."

/-- Embeds component_row_wise_max (runtime-rust/src/components.rs, lines
245-260): both numeric arms apply the maximum. -/
def component_row_wise_max : ArrayND → ArrayND → Except String ArrayND
  | .f64 x, .f64 y => (broadcast_map x y (fun l r => max l r)).map .f64
  | .i64 x, .i64 y => (broadcast_map x y (fun l r => max l r)).map .i64
  | _, _ =>
    .error "Max: Either the argument types are mismatched or non-numeric."

end RowWise

namespace Bits

/-- Raw IEEE-754 double components as produced by decompose_raw in the
ieee754 crate: sign bit, biased 11-bit exponent, 52-bit mantissa. -/
structure RawF64 where
  sign : Bool
  exponent : Nat
  mantissa : Nat
deriving DecidableEq

/-- Zero-padded most-significant-bit-first binary notation of width w, as
produced by the Rust format strings {:011b} and {:052b}; the character 1
is modelled as true. -/
def natToBits : Nat → Nat → List Bool
  | 0, _ => []
  | w + 1, n => natToBits w (n / 2) ++ [decide (n % 2 = 1)]

/-- Value of a most-significant-bit-first binary digit string, as parsed
by from_str_radix with radix 2. -/
def bitsToNat (l : List Bool) : Nat :=
  l.foldl (fun a b => 2 * a + b.toNat) 0

/-- Embeds f64_to_binary (runtime-rust/src/utilities/mod.rs, lines
220-231): the sign character, then the 11 exponent characters, then the
52 mantissa characters. -/
def f64_to_binary (num : RawF64) : List Bool :=
  [num.sign] ++ natToBits 11 num.exponent ++ natToBits 52 num.mantissa

/-- Embeds binary_to_f64 (runtime-rust/src/utilities/mod.rs, lines
244-259): slices the sign, exponent and mantissa fields back out and
recomposes.  A string shorter than the sliced ranges makes the Rust code
panic, and a mantissa field above the u64 range makes from_str_radix
fail; both are modelled as errors. -/
def binary_to_f64 (binary_string : List Bool) : Except String RawF64 :=
  if binary_string.length < 12 then
    .error "byte index out of bounds"
  else if 2 ^ 64 ≤ bitsToNat (binary_string.drop 12) then
    .error "number too large to fit in target type"
  else
    .ok ⟨binary_string.headI,
      bitsToNat ((binary_string.drop 1).take 11),
      bitsToNat (binary_string.drop 12)⟩

end Bits

namespace Lambda

/-- An IEEE-754 double as seen through decompose and recompose of the
ieee754 crate: sign, unbiased exponent (biased field minus 1023) and the
52-bit mantissa field.  A finite double always decomposes with exponent
at least -1023 (with -1023 marking zero and subnormals) and mantissa
below 2^52. -/
structure F64 where
  sign : Bool
  exponent : Int
  mantissa : Nat
deriving DecidableEq

/-- Body of get_closest_multiple_of_lambda
(runtime-rust/src/utilities/mod.rs, lines 461-497): shift the exponent
down by m, round the mantissa to an integer at that scale by bit masking,
shift the exponent back up and recompose. -/
def get_closest_multiple_of_lambda_core (x : F64) (m : Int) : F64 :=
  let exponent := x.exponent - m
  let r : Bool × Int × Nat :=
    if 52 ≤ exponent then
      (x.sign, exponent, x.mantissa)
    else if exponent = -1 then
      (x.sign, 0, 0)
    else if exponent < -1 then
      (x.sign, -1023 - m, 0)
    else
      let e := exponent.toNat
      let integer_mask : Nat := ((1 <<< e) - 1) <<< (52 - e)
      let integer_mantissa : Nat := x.mantissa &&& integer_mask
      if x.mantissa &&& (1 <<< (52 - (e + 1))) = 0 then
        (x.sign, exponent, integer_mantissa)
      else if integer_mantissa = integer_mask then
        (x.sign, exponent + 1, 0)
      else
        (x.sign, exponent, integer_mantissa + (1 <<< (52 - e)))
  ⟨r.1, r.2.1 + m, r.2.2⟩

/-- Embeds get_closest_multiple_of_lambda: the Rust function returns
Result and every path of its body ends in Ok. -/
def get_closest_multiple_of_lambda (x : F64) (m : Int) :
    Except String F64 :=
  .ok (get_closest_multiple_of_lambda_core x m)

/-- Division and modulus form of the rounding performed by the mid branch
of get_closest_multiple_of_lambda (exponent between 0 and 51): returns
the exponent increment and the rounded mantissa field. -/
def midRound (e mant : Nat) : Int × Nat :=
  let d := mant / 2 ^ (52 - e) % 2 ^ e
  if mant / 2 ^ (52 - (e + 1)) % 2 = 0 then (0, d * 2 ^ (52 - e))
  else if d = 2 ^ e - 1 then (1, 0)
  else (0, (d + 1) * 2 ^ (52 - e))

/-- Exact power of two as a rational, for valuing doubles. -/
def pow2 : Int → ℚ
  | .ofNat n => 2 ^ n
  | .negSucc n => 1 / 2 ^ (n + 1)

/-- Exact rational value of a decomposed double under ieee754 recompose
semantics: exponent -1023 denotes zero or a subnormal (biased field 0);
larger exponents denote normal values with an implicit leading one. -/
def toRat (x : F64) : ℚ :=
  let sgn : ℚ := if x.sign then -1 else 1
  if x.exponent = -1023 then
    sgn * ((x.mantissa : ℚ) / 2 ^ 52) * pow2 (-1022)
  else
    sgn * ((2 ^ 52 + (x.mantissa : ℚ)) / 2 ^ 52) * pow2 x.exponent

end Lambda

namespace Snapping

/-- An n-dimensional numeric array (ndarray ArrayD) as a shape together
with its row-major element list; f64 elements are modelled as exact
rationals. -/
structure ArrM where
  shape : List Nat
  data : List ℚ
deriving DecidableEq

/-- Embeds get_num_columns (runtime-rust/src/utilities/mod.rs, lines
21-27): one column for rank 0 or 1, the second shape entry for rank 2,
an error above rank 2. -/
def get_num_columns (a : ArrM) : Except String Nat :=
  match a.shape with
  | [] => .ok 1
  | [_] => .ok 1
  | [_, c] => .ok c
  | _ => .error "data may be at most 2-dimensional"

/-- Helper for to_nd: drop k trailing axes, each of which must be a
singleton. -/
def removeTrailing (shape : List Nat) : Nat → Except String (List Nat)
  | 0 => .ok shape
  | k + 1 =>
    match shape.getLast? with
    | none => .error "ndim may not be negative"
    | some 1 => removeTrailing shape.dropLast k
    | some _ => .error "cannot remove non-singleton trailing axis"

/-- Embeds to_nd (runtime-rust/src/utilities/mod.rs, lines 129-149):
reshape to the requested rank by removing singleton trailing axes or
appending singleton axes; the element list is unchanged. -/
def to_nd (a : ArrM) (ndim : Nat) : Except String ArrM :=
  if a.shape.length = ndim then .ok a
  else if ndim < a.shape.length then
    (removeTrailing a.shape (a.shape.length - ndim)).map
      (fun s => ⟨s, a.data⟩)
  else
    .ok ⟨a.shape ++ List.replicate (ndim - a.shape.length) 1, a.data⟩

/-- Modelled from the spec: spread_privacy_usage replicates a single
privacy usage across n columns and otherwise requires one usage per
column.  The function is validator code not under src/. -/
def spread_privacy_usage (usages : List Validator.PrivacyUsage) (n : Nat) :
    Except String (List Validator.PrivacyUsage) :=
  if usages.length = n then .ok usages
  else match usages with
    | [u] => .ok (List.replicate n u)
    | _ => .error "number of privacy usages must match the number of columns"

/-- Embeds ndarray Array::from_shape_vec: succeeds when the shape product
matches the element count. -/
def from_shape_vec (shape : List Nat) (v : List ℚ) :
    Except String ArrM :=
  if shape.prod = v.length then .ok ⟨shape, v⟩
  else .error "could not create array from shape and values"

/-- Generalized columns of an array (the gencolumns view): for a rank-2
array the c columns of length r, otherwise the whole element list as one
lane. -/
def columnsOf (a : ArrM) : List (List ℚ) :=
  match a.shape with
  | [r, c] => (List.range c).map (fun j =>
      (List.range r).map (fun i => a.data.getD (i * c + j) 0))
  | _ => [a.data]

/-- Per-column noising loop body of SnappingMechanism::evaluate: the
iterator zips truncate to the shortest of the data, sensitivity and
epsilon lanes; cells beyond the zip stay unchanged. -/
def noiseColumn
    (kernel : ℚ → ℚ → ℚ → ℚ → ℚ → Option ℚ → Bool → Except String ℚ)
    (col sensCol epsCol : List ℚ) (lo hi : ℚ) (bp : Option ℚ)
    (ct : Bool) : Except String (List ℚ) := do
  let k := min col.length (min sensCol.length epsCol.length)
  let noised ← (List.range k).mapM (fun i =>
    kernel (col.getD i 0) (epsCol.getD i 0) (sensCol.getD i 0) lo hi bp ct)
  pure (noised ++ col.drop k)

/-- Column-level zip of SnappingMechanism::evaluate: data columns are
zipped with sensitivity and epsilon columns and with the bounds;
columns beyond the shortest zip stay unchanged. -/
def snappingLoop
    (kernel : ℚ → ℚ → ℚ → ℚ → ℚ → Option ℚ → Bool → Except String ℚ)
    (dataCols sensCols epsCols : List (List ℚ)) (lower upper : List ℚ)
    (bp : Option ℚ) (ct : Bool) : Except String (List (List ℚ)) := do
  let quads := (dataCols.zip (sensCols.zip epsCols)).zip (lower.zip upper)
  let noised ← quads.mapM (fun q =>
    noiseColumn kernel q.1.1 q.1.2.1 q.1.2.2 q.2.1 q.2.2 bp ct)
  pure (noised ++ dataCols.drop quads.length)

/-- Release produced by an Evaluable impl. -/
structure ReleaseNodeM where
  value : List (List ℚ)
  privacy_usages : Option (List Validator.PrivacyUsage)
  public : Bool
deriving DecidableEq

/-- Embeds Evaluable::evaluate for proto::SnappingMechanism
(runtime-rust/src/components/mechanisms.rs, lines 192-258).  The data is
already projected to a numeric array; the scalar snapping kernel
(runtime-rust/src/utilities/mechanisms.rs, not under src/) is passed as
`kernel`; the output value is given in its gencolumns view. -/
def snappingEvaluate
    (kernel : ℚ → ℚ → ℚ → ℚ → ℚ → Option ℚ → Bool → Except String ℚ)
    (privacy_definition : Option Validator.PrivacyDefinition)
    (privacy_usage : List Validator.PrivacyUsage)
    (data sensitivity lower upper : ArrM)
    (binding_probability : Option ℚ) :
    Except String ReleaseNodeM := do
  let enforce_constant_time :=
    (privacy_definition.map (fun pd => pd.protect_elapsed_time)).getD false
  let usages ← spread_privacy_usage privacy_usage sensitivity.data.length
  let epsilon ← from_shape_vec data.shape
    (usages.map (fun u => u.epsilon))
  let num_columns ← get_num_columns data
  let lowerV ← to_nd lower 1
  if num_columns ≠ lowerV.data.length then
    .error "lower must share the same number of columns as data"
  else do
    let upperV ← to_nd upper 1
    if num_columns ≠ upperV.data.length then
      .error "upper must share the same number of columns as data"
    else do
      let value ← snappingLoop kernel (columnsOf data)
        (columnsOf sensitivity) (columnsOf epsilon)
        lowerV.data upperV.data binding_probability enforce_constant_time
      .ok ⟨value, some usages, true⟩

end Snapping

namespace Impute

/-- A double that is either NaN or a numeric value (modelled as an exact
rational); impute_float_uniform replaces exactly the NaN cells. -/
inductive FVal
  | nan
  | val (q : ℚ)
deriving DecidableEq

/-- Modelled from the spec: sample_uniform(lo, hi) maps a uniform draw u
from [0, 1) affinely into [lo, hi).  The sampler itself
(runtime-rust/src/utilities/noise.rs) is not under src/. -/
def sample_uniform (lo hi u : ℚ) : ℚ := lo + u * (hi - lo)

/-- Modelled from the spec: standardize_numeric_argument broadcasts a
single bound to every column and otherwise requires one bound per
column.  The function is validator code not under src/. -/
def standardize_numeric_argument (xs : List ℚ) (n : Nat) :
    Except String (List ℚ) :=
  match xs with
  | [x] => .ok (List.replicate n x)
  | _ =>
    if xs.length = n then .ok xs
    else .error "length of numeric argument must match the number of columns"

/-- Embeds impute_float_uniform
(runtime-rust/src/components/impute.rs, lines 132-146) on one column:
cells that are not NaN are kept, NaN cells are overwritten with the next
uniform draw.  The random source is the stream `rng` addressed by a
running counter; the result carries the advanced counter. -/
def imputeColumn (rng : Nat → ℚ) (lo hi : ℚ) :
    List FVal → Nat → List FVal × Nat
  | [], k => ([], k)
  | .nan :: rest, k =>
    let r := imputeColumn rng lo hi rest (k + 1)
    (.val (sample_uniform lo hi (rng k)) :: r.1, r.2)
  | .val q :: rest, k =>
    let r := imputeColumn rng lo hi rest k
    (.val q :: r.1, r.2)

/-- Column iteration of impute_float_uniform_arrayd: generalized columns
are zipped with the standardized bounds (the zip truncates; columns
beyond it stay unchanged), threading the random counter. -/
def imputeColumns (rng : Nat → ℚ) :
    List (List FVal) → List ℚ → List ℚ → Nat → List (List FVal)
  | [], _, _, _ => []
  | c :: cs, l :: ls, h :: hs, k =>
    let r := imputeColumn rng l h c k
    r.1 :: imputeColumns rng cs ls hs r.2
  | c :: cs, _, _, _ => c :: cs

/-- Embeds impute_float_uniform_arrayd
(runtime-rust/src/components/impute.rs, lines 112-130).  The data array
is given in its gencolumns view (for rank 2, the list of columns), so
the number of generalized columns is the list length. -/
def impute_float_uniform_arrayd (rng : Nat → ℚ)
    (data : List (List FVal)) (lower upper : List ℚ) :
    Except String (List (List FVal)) := do
  let num_columns := data.length
  let lo ← standardize_numeric_argument lower num_columns
  let hi ← standardize_numeric_argument upper num_columns
  .ok (imputeColumns rng data lo hi 0)

end Impute

-- Theorems for the claims follow the definitions above.

namespace Validator

/-- Claim C2: for every privacy definition with protect_floating_point =
true, LaplaceMechanism propagate_property returns an error (the Laplace
floating-point-attack rejection), regardless of the data properties or
privacy usage supplied. -/
theorem laplace_propagate_rejects_floating_point
    (pd : PrivacyDefinition) (data : Option ValueProperties)
    (usage : List PrivacyUsage)
    (h : pd.protect_floating_point = true) :
    laplacePropagateProperty (some pd) data usage =
      Except.error "Floating-point protections are enabled. The laplace mechanism is susceptible to floating-point attacks." := by
  simp [laplacePropagateProperty, bind, Except.bind, h]

/-- Concrete instance for claim C2. -/
theorem laplace_propagate_rejects_floating_point_witness :
    laplacePropagateProperty
      (some ⟨true, false, 1, false⟩)
      (some (ValueProperties.array ⟨DataType.f64, false, none, none, []⟩))
      [⟨1, 0⟩] =
      Except.error "Floating-point protections are enabled. The laplace mechanism is susceptible to floating-point attacks." :=
  laplace_propagate_rejects_floating_point _ _ _ rfl

end Validator

namespace Validator

/-- Claim C1: LaplaceMechanism propagate_property enforces the mechanism
boundary invariant: it returns an error when the incoming data property
has no aggregator; whenever it returns Ok, the output value properties
have releasable = true and aggregator = none; and it returns an error
when the incoming data property has a non-float element type. -/
theorem laplace_propagate_mechanism_boundary
    (pd : Option PrivacyDefinition) (data : Option ValueProperties)
    (usage : List PrivacyUsage) :
    (∀ ap, data = some (ValueProperties.array ap) → ap.aggregator = none →
      ∃ e, laplacePropagateProperty pd data usage = Except.error e) ∧
    (∀ w, laplacePropagateProperty pd data usage = Except.ok w →
      ∃ ap, w.value = ValueProperties.array ap ∧ ap.releasable = true ∧
        ap.aggregator = none) ∧
    (∀ ap, data = some (ValueProperties.array ap) → ap.data_type ≠ DataType.f64 →
      ∃ e, laplacePropagateProperty pd data usage = Except.error e) := by
  refine ⟨?_, ?_, ?_⟩
  · rintro ap rfl hagg
    cases pd with
    | none => exact ⟨_, rfl⟩
    | some p =>
      simp only [laplacePropagateProperty, bind, Except.bind,
        ValueProperties.arrayProp, hagg]
      split
      · exact ⟨_, rfl⟩
      · split
        · exact ⟨_, rfl⟩
        · split
          · exact ⟨_, rfl⟩
          · exact ⟨_, rfl⟩
  · intro w h
    simp only [laplacePropagateProperty, bind, Except.bind] at h
    repeat (split at h <;> try exact Except.noConfusion h)
    cases h
    exact ⟨_, rfl, rfl, rfl⟩
  · rintro ap rfl hdt
    cases pd with
    | none => exact ⟨_, rfl⟩
    | some p =>
      simp only [laplacePropagateProperty, bind, Except.bind,
        ValueProperties.arrayProp]
      split
      · exact ⟨_, rfl⟩
      · split
        · exact ⟨_, rfl⟩
        · exact ⟨_, rfl⟩

/-- Concrete instances for claim C1: a float data property without an
aggregator is rejected, a successful run flips releasable and clears the
aggregator, and an integer data property is rejected. -/
theorem laplace_propagate_mechanism_boundary_witness :
    (∃ e, laplacePropagateProperty (some ⟨false, false, 1, false⟩)
      (some (ValueProperties.array ⟨DataType.f64, false, none, none, []⟩))
      [⟨1, 0⟩] = Except.error e) ∧
    (∃ ap, (Warnable.mk
        (ValueProperties.array ⟨DataType.f64, true, none, none, []⟩)
        []).value = ValueProperties.array ap ∧ ap.releasable = true ∧
        ap.aggregator = none) ∧
    (∃ e, laplacePropagateProperty (some ⟨false, false, 1, false⟩)
      (some (ValueProperties.array
        ⟨DataType.i64, false, some ⟨Except.ok [[1]], [1]⟩, none, []⟩))
      [⟨1, 0⟩] = Except.error e) := by
  refine ⟨(laplace_propagate_mechanism_boundary _ _ _).1 _ rfl rfl, ?_,
    (laplace_propagate_mechanism_boundary _ _ _).2.2 _ rfl (by decide)⟩
  exact (laplace_propagate_mechanism_boundary (some ⟨false, false, 1, false⟩)
    (some (ValueProperties.array
      ⟨DataType.f64, false, some ⟨Except.ok [[1]], [1]⟩, none, []⟩))
    [⟨1, 0⟩]).2.1 _ (by decide)

end Validator


namespace DirectApi

/-- Claim C3: the C ABI functions laplace_mechanism, gaussian_mechanism
and simple_geometric_mechanism return exactly value plus the noise
produced by the corresponding runtime kernel called with the same
parameters — for the i64 geometric wrapper whenever that sum lies in
the i64 range, outside which the release-build sum wraps and a debug
build panics; snapping_mechanism and snapping_mechanism_binding return
the snapping kernel release of value directly, with no addition at the
ABI layer; and a kernel error aborts the process (modelled as `none`)
rather than returning an error value. -/
theorem direct_api_value_plus_noise
    (lapK : ℚ → ℚ → Bool → Except String ℚ)
    (gauK : ℚ → ℚ → ℚ → Bool → Bool → Except String ℚ)
    (geoK : ℚ → ℚ → Int → Int → Bool → Except String Int)
    (snapK : ℚ → ℚ → ℚ → ℚ → ℚ → Option ℚ → Bool → Except String ℚ)
    (v eps del sens lo hi p : ℚ) (vi loI hiI : Int) (analytic ct : Bool) :
    (∀ n, lapK eps sens ct = .ok n →
      laplace_mechanism lapK v eps sens ct = some (v + n)) ∧
    (∀ e, lapK eps sens ct = .error e →
      laplace_mechanism lapK v eps sens ct = none) ∧
    (∀ n, gauK eps del sens analytic ct = .ok n →
      gaussian_mechanism gauK v eps del sens analytic ct = some (v + n)) ∧
    (∀ e, gauK eps del sens analytic ct = .error e →
      gaussian_mechanism gauK v eps del sens analytic ct = none) ∧
    (∀ n, geoK eps sens loI hiI ct = .ok n →
      -9223372036854775808 ≤ vi + n → vi + n ≤ 9223372036854775807 →
      simple_geometric_mechanism geoK vi eps sens loI hiI ct =
        some (vi + n)) ∧
    (∀ e, geoK eps sens loI hiI ct = .error e →
      simple_geometric_mechanism geoK vi eps sens loI hiI ct = none) ∧
    (∀ r, snapK v eps sens lo hi none ct = .ok r →
      snapping_mechanism snapK v eps sens lo hi ct = some r) ∧
    (∀ e, snapK v eps sens lo hi none ct = .error e →
      snapping_mechanism snapK v eps sens lo hi ct = none) ∧
    (∀ r, snapK v eps sens lo hi (some p) ct = .ok r →
      snapping_mechanism_binding snapK v eps sens lo hi p ct = some r) ∧
    (∀ e, snapK v eps sens lo hi (some p) ct = .error e →
      snapping_mechanism_binding snapK v eps sens lo hi p ct = none) := by
  refine ⟨fun n h => ?_, fun e h => ?_, fun n h => ?_, fun e h => ?_,
    fun n h hlo2 hhi2 => ?_, fun e h => ?_, fun r h => ?_, fun e h => ?_,
    fun r h => ?_, fun e h => ?_⟩ <;>
    simp [laplace_mechanism, gaussian_mechanism, simple_geometric_mechanism,
      snapping_mechanism, snapping_mechanism_binding, unwrapAbort,
      wrapI64, h]
  omega

/-- Concrete instances for claim C3, with constant kernels. -/
theorem direct_api_value_plus_noise_witness :
    laplace_mechanism (fun _ _ _ => .ok 7) 5 1 1 false = some 12 ∧
    laplace_mechanism (fun _ _ _ => .error "bad") 5 1 1 false = none ∧
    gaussian_mechanism (fun _ _ _ _ _ => .ok 3) 5 1 (1/2) 1 false false =
      some 8 ∧
    simple_geometric_mechanism (fun _ _ _ _ _ => .ok 2) 5 1 1 0 10 false =
      some 7 ∧
    snapping_mechanism (fun _ _ _ _ _ _ _ => .ok 9) 5 1 1 0 10 false =
      some 9 ∧
    snapping_mechanism_binding (fun _ _ _ _ _ _ _ => .ok 9) 5 1 1 0 10
      (1/2) false = some 9 := by
  have h1 := direct_api_value_plus_noise (fun _ _ _ => .ok 7)
    (fun _ _ _ _ _ => .ok 3) (fun _ _ _ _ _ => .ok 2)
    (fun _ _ _ _ _ _ _ => .ok 9) 5 1 (1/2) 1 0 10 (1/2) 5 0 10 false false
  have h2 := direct_api_value_plus_noise (fun _ _ _ => .error "bad")
    (fun _ _ _ _ _ => .ok 3) (fun _ _ _ _ _ => .ok 2)
    (fun _ _ _ _ _ _ _ => .ok 9) 5 1 (1/2) 1 0 10 (1/2) 5 0 10 false false
  refine ⟨?_, h2.2.1 "bad" rfl, ?_, ?_, h1.2.2.2.2.2.2.1 9 rfl,
    h1.2.2.2.2.2.2.2.2.1 9 rfl⟩
  · have := h1.1 7 rfl
    norm_num at this
    exact this
  · have := h1.2.2.1 3 rfl
    norm_num at this
    exact this
  · have := h1.2.2.2.2.1 2 rfl (by decide) (by decide)
    norm_num at this
    exact this

end DirectApi


namespace LaplaceAccuracy

/-- Claim C8: for the Laplace mechanism at fixed alpha and sensitivity,
usage-to-accuracy followed by accuracy-to-usage returns the original
epsilon (exactly, over the rationals, with the common factor ln(1/alpha)
abstracted). -/
theorem accuracy_usage_roundtrip (lnInvAlpha sensitivity epsilon : ℚ)
    (hc : lnInvAlpha ≠ 0) (hs : sensitivity ≠ 0) (he : epsilon ≠ 0) :
    accuracy_to_privacy_usage lnInvAlpha sensitivity
      (privacy_usage_to_accuracy lnInvAlpha sensitivity epsilon) =
      epsilon := by
  unfold accuracy_to_privacy_usage privacy_usage_to_accuracy
  field_simp
  ring

/-- Concrete instance for claim C8. -/
theorem accuracy_usage_roundtrip_witness :
    accuracy_to_privacy_usage 1 1 (privacy_usage_to_accuracy 1 1 2) = 2 :=
  accuracy_usage_roundtrip 1 1 2 (by norm_num) (by norm_num) (by norm_num)

end LaplaceAccuracy

namespace RowWise

/-- Claim C9: on the integer path component_row_wise_min applies max
instead of min: on i64 arrays it returns the element-wise maximum of the
broadcast pair, agreeing with component_row_wise_max, while on f64 arrays
it returns the element-wise minimum. -/
theorem row_wise_min_uses_max_on_integers :
    (∀ xs ys : List Int, component_row_wise_min (.i64 xs) (.i64 ys) =
      component_row_wise_max (.i64 xs) (.i64 ys)) ∧
    (∀ (xs ys xs2 ys2 : List Int),
      broadcastTo xs (max xs.length ys.length) = some xs2 →
      broadcastTo ys (max xs.length ys.length) = some ys2 →
      component_row_wise_min (.i64 xs) (.i64 ys) =
        .ok (.i64 (List.zipWith max xs2 ys2))) ∧
    (∀ (xs ys xs2 ys2 : List ℚ),
      broadcastTo xs (max xs.length ys.length) = some xs2 →
      broadcastTo ys (max xs.length ys.length) = some ys2 →
      component_row_wise_min (.f64 xs) (.f64 ys) =
        .ok (.f64 (List.zipWith min xs2 ys2))) := by
  refine ⟨fun xs ys => rfl, fun xs ys xs2 ys2 h1 h2 => ?_,
    fun xs ys xs2 ys2 h1 h2 => ?_⟩ <;>
    simp [component_row_wise_min, broadcast_map, Except.map, h1, h2]

/-- Concrete instances for claim C9: [1, 5] against the broadcast [3]
gives [3, 5] (the element-wise maximum) on the integer path and [1, 3]
(the element-wise minimum) on the float path. -/
theorem row_wise_min_uses_max_on_integers_witness :
    component_row_wise_min (.i64 [1, 5]) (.i64 [3]) =
      .ok (.i64 [3, 5]) ∧
    component_row_wise_min (.f64 [1, 5]) (.f64 [3]) =
      .ok (.f64 [1, 3]) := by
  constructor
  · have := row_wise_min_uses_max_on_integers.2.1 [1, 5] [3] [1, 5] [3, 3]
      (by decide) (by decide)
    simpa using this
  · have := row_wise_min_uses_max_on_integers.2.2 [1, 5] [3] [1, 5] [3, 3]
      (by decide) (by decide)
    simpa using this

end RowWise

namespace Bits

theorem natToBits_length (w n : Nat) : (natToBits w n).length = w := by
  induction w generalizing n with
  | zero => rfl
  | succ w ih => simp [natToBits, ih]

theorem bitsToNat_append (xs : List Bool) (b : Bool) :
    bitsToNat (xs ++ [b]) = 2 * bitsToNat xs + b.toNat := by
  simp [bitsToNat, List.foldl_append]

theorem bitsToNat_natToBits (w n : Nat) (h : n < 2 ^ w) :
    bitsToNat (natToBits w n) = n := by
  induction w generalizing n with
  | zero =>
    simp [Nat.pow_zero] at h
    subst h
    rfl
  | succ w ih =>
    have hdiv : n / 2 < 2 ^ w := by
      rw [Nat.pow_succ] at h
      omega
    rw [natToBits, bitsToNat_append, ih _ hdiv]
    rcases Nat.mod_two_eq_zero_or_one n with h2 | h2 <;>
      simp [h2] <;> omega

/-- Claim C7: for every finite non-NaN double (biased exponent below
2047, mantissa within 52 bits), binary_to_f64 applied to f64_to_binary
succeeds and returns the identical sign, exponent and mantissa. -/
theorem binary_roundtrip (x : RawF64) (hexp : x.exponent < 2 ^ 11)
    (hman : x.mantissa < 2 ^ 52) (_hfinite : x.exponent ≠ 2047) :
    binary_to_f64 (f64_to_binary x) = .ok x := by
  have hlen11 := natToBits_length 11 x.exponent
  have hlen52 := natToBits_length 52 x.mantissa
  have hdrop1 : (f64_to_binary x).drop 1 =
      natToBits 11 x.exponent ++ natToBits 52 x.mantissa := rfl
  have hdrop12 : (f64_to_binary x).drop 12 = natToBits 52 x.mantissa := by
    have : (f64_to_binary x).drop 12 =
        (natToBits 11 x.exponent ++ natToBits 52 x.mantissa).drop 11 := rfl
    rw [this, List.drop_left' hlen11]
  have htake : ((f64_to_binary x).drop 1).take 11 =
      natToBits 11 x.exponent := by
    rw [hdrop1, List.take_left' hlen11]
  have hlen : (f64_to_binary x).length = 64 := by
    simp [f64_to_binary, hlen11, hlen52]
  have hm52 := bitsToNat_natToBits 52 x.mantissa hman
  have he11 := bitsToNat_natToBits 11 x.exponent hexp
  rw [binary_to_f64, hdrop12, htake, hm52, he11, hlen]
  have hhead : (f64_to_binary x).headI = x.sign := rfl
  rw [hhead]
  norm_num
  omega

/-- Concrete instance for claim C7: the double 1.0, whose raw components
are sign 0, biased exponent 1023, mantissa 0. -/
theorem binary_roundtrip_witness :
    binary_to_f64 (f64_to_binary ⟨false, 1023, 0⟩) =
      .ok ⟨false, 1023, 0⟩ :=
  binary_roundtrip ⟨false, 1023, 0⟩ (by decide) (by decide) (by decide)

end Bits


namespace Lambda

theorem land_mask_eq (mant e k : Nat) :
    mant &&& (((1 <<< e) - 1) <<< k) = mant / 2 ^ k % 2 ^ e * 2 ^ k := by
  apply Nat.eq_of_testBit_eq
  intro i
  rw [Nat.testBit_land, Nat.one_shiftLeft, Nat.testBit_shiftLeft,
    Nat.testBit_two_pow_sub_one]
  rw [show mant / 2 ^ k % 2 ^ e * 2 ^ k = ((mant >>> k) % 2 ^ e) <<< k by
    rw [Nat.shiftRight_eq_div_pow, Nat.shiftLeft_eq]]
  rw [Nat.testBit_shiftLeft, Nat.testBit_mod_two_pow, Nat.testBit_shiftRight]
  by_cases hk : k ≤ i
  · have h2 : k + (i - k) = i := by omega
    simp [hk, h2]
    rw [Bool.and_comm]
  · simp [hk]

theorem land_single_bit_eq_zero (mant j : Nat) :
    (mant &&& (1 <<< j) = 0) ↔ (mant / 2 ^ j % 2 = 0) := by
  rw [Nat.one_shiftLeft, Nat.and_two_pow]
  have hpos := Nat.two_pow_pos j
  cases h : mant.testBit j with
  | false =>
    rw [Nat.testBit_to_div_mod] at h
    simp only [decide_eq_false_iff_not] at h
    simp only [Bool.toNat_false]
    omega
  | true =>
    rw [Nat.testBit_to_div_mod] at h
    simp only [decide_eq_true_eq] at h
    simp only [Bool.toNat_true]
    omega


theorem land_mask_eq2 (mant e k : Nat) :
    mant &&& (2 ^ e - 1) <<< k = mant / 2 ^ k % 2 ^ e * 2 ^ k := by
  have h := land_mask_eq mant e k
  rwa [Nat.one_shiftLeft] at h

theorem core_of_ge (x : F64) (m : Int) (h : 52 ≤ x.exponent - m) :
    get_closest_multiple_of_lambda_core x m =
      ⟨x.sign, x.exponent, x.mantissa⟩ := by
  simp only [get_closest_multiple_of_lambda_core]
  rw [if_pos h]
  simp [Int.sub_add_cancel]

theorem core_of_eq (x : F64) (m : Int) (h : x.exponent - m = -1) :
    get_closest_multiple_of_lambda_core x m = ⟨x.sign, m, 0⟩ := by
  simp only [get_closest_multiple_of_lambda_core]
  rw [if_neg (by omega), if_pos h]
  simp

theorem core_of_lt (x : F64) (m : Int) (h : x.exponent - m < -1) :
    get_closest_multiple_of_lambda_core x m = ⟨x.sign, -1023, 0⟩ := by
  simp only [get_closest_multiple_of_lambda_core]
  rw [if_neg (by omega), if_neg (by omega), if_pos h]
  simp [Int.sub_add_cancel]

theorem core_of_mid (x : F64) (m : Int) (h0 : 0 ≤ x.exponent - m)
    (h1 : x.exponent - m ≤ 51) :
    get_closest_multiple_of_lambda_core x m =
      ⟨x.sign,
        x.exponent + (midRound (x.exponent - m).toNat x.mantissa).1,
        (midRound (x.exponent - m).toNat x.mantissa).2⟩ := by
  by_cases hbit : x.mantissa /
      2 ^ (52 - ((x.exponent - m).toNat + 1)) % 2 = 0
  · simp only [get_closest_multiple_of_lambda_core, midRound]
    rw [if_neg (by omega), if_neg (by omega), if_neg (by omega),
      if_pos ((land_single_bit_eq_zero _ _).mpr hbit), if_pos hbit,
      land_mask_eq]
    simp only [F64.mk.injEq, true_and, and_true]
    omega
  · by_cases hmask : x.mantissa / 2 ^ (52 - (x.exponent - m).toNat) %
        2 ^ (x.exponent - m).toNat = 2 ^ (x.exponent - m).toNat - 1
    · simp only [get_closest_multiple_of_lambda_core, midRound]
      rw [if_neg (by omega), if_neg (by omega), if_neg (by omega),
        if_neg (fun hc => hbit ((land_single_bit_eq_zero _ _).mp hc)),
        if_pos (by
          rw [land_mask_eq, Nat.one_shiftLeft, Nat.shiftLeft_eq, hmask]),
        if_neg (fun hc => hbit hc), if_pos hmask]
      simp only [F64.mk.injEq, true_and, and_true]
      omega
    · simp only [get_closest_multiple_of_lambda_core, midRound]
      rw [if_neg (by omega), if_neg (by omega), if_neg (by omega),
        if_neg (fun hc => hbit ((land_single_bit_eq_zero _ _).mp hc)),
        if_neg (by
          rw [land_mask_eq, Nat.one_shiftLeft, Nat.shiftLeft_eq]
          exact fun hc => hmask
            (Nat.eq_of_mul_eq_mul_right (Nat.two_pow_pos _) hc)),
        if_neg (fun hc => hbit hc), if_neg hmask]
      simp only [Nat.one_shiftLeft, land_mask_eq2, F64.mk.injEq,
        true_and, and_true]
      refine ⟨by omega, by rw [Nat.succ_mul]⟩

theorem midRound_zero (e : Nat) : midRound e 0 = (0, 0) := by
  simp [midRound]

theorem midRound_fixed (e d : Nat) (he : e ≤ 51) (hd : d < 2 ^ e) :
    midRound e (d * 2 ^ (52 - e)) = (0, d * 2 ^ (52 - e)) := by
  have hsplit : d * 2 ^ (52 - e) = d * 2 * 2 ^ (52 - (e + 1)) := by
    rw [show 52 - e = (52 - (e + 1)) + 1 by omega, pow_succ]
    ring
  have hcond : d * 2 ^ (52 - e) / 2 ^ (52 - (e + 1)) % 2 = 0 := by
    rw [hsplit, Nat.mul_div_cancel _ (Nat.two_pow_pos _),
      Nat.mul_mod_left]
  unfold midRound
  rw [if_pos hcond, Nat.mul_div_cancel _ (Nat.two_pow_pos _),
    Nat.mod_eq_of_lt hd]

theorem core_fix_of_d (s : Bool) (xe m : Int) (d : Nat)
    (h0 : 0 ≤ xe - m) (h1 : xe - m ≤ 51) (hd : d < 2 ^ (xe - m).toNat) :
    get_closest_multiple_of_lambda_core
      ⟨s, xe, d * 2 ^ (52 - (xe - m).toNat)⟩ m =
      ⟨s, xe, d * 2 ^ (52 - (xe - m).toNat)⟩ := by
  rw [core_of_mid ⟨s, xe, d * 2 ^ (52 - (xe - m).toNat)⟩ m h0 h1]
  rw [midRound_fixed _ _ (by omega) hd]
  simp

theorem core_idempotent (x : F64) (m : Int) (hexp : -1023 ≤ x.exponent) :
    get_closest_multiple_of_lambda_core
      (get_closest_multiple_of_lambda_core x m) m =
      get_closest_multiple_of_lambda_core x m := by
  by_cases hge : 52 ≤ x.exponent - m
  · rw [core_of_ge x m hge]
    exact core_of_ge ⟨x.sign, x.exponent, x.mantissa⟩ m hge
  · by_cases heqm : x.exponent - m = -1
    · rw [core_of_eq x m heqm]
      rw [core_of_mid ⟨x.sign, m, 0⟩ m (by simp) (by simp)]
      simp [midRound_zero]
    · by_cases hlt : x.exponent - m < -1
      · rw [core_of_lt x m hlt]
        exact core_of_lt ⟨x.sign, -1023, 0⟩ m (by show -1023 - m < -1; omega)
      · have h0 : 0 ≤ x.exponent - m := by omega
        have h1 : x.exponent - m ≤ 51 := by omega
        rw [core_of_mid x m h0 h1]
        by_cases hbit : x.mantissa /
            2 ^ (52 - ((x.exponent - m).toNat + 1)) % 2 = 0
        · have hmr : midRound (x.exponent - m).toNat x.mantissa =
              (0, x.mantissa / 2 ^ (52 - (x.exponent - m).toNat) %
                2 ^ (x.exponent - m).toNat *
                2 ^ (52 - (x.exponent - m).toNat)) := by
            unfold midRound
            rw [if_pos hbit]
          rw [hmr]
          simp only [add_zero]
          exact core_fix_of_d x.sign x.exponent m _ h0 h1
            (Nat.mod_lt _ (Nat.two_pow_pos _))
        · by_cases hmask : x.mantissa /
              2 ^ (52 - (x.exponent - m).toNat) %
              2 ^ (x.exponent - m).toNat =
              2 ^ (x.exponent - m).toNat - 1
          · have hmr : midRound (x.exponent - m).toNat x.mantissa =
                (1, 0) := by
              unfold midRound
              rw [if_neg hbit, if_pos hmask]
            rw [hmr]
            by_cases htop : x.exponent - m = 51
            · exact core_of_ge ⟨x.sign, x.exponent + 1, 0⟩ m
                (by show (52 : Int) ≤ x.exponent + 1 - m; omega)
            · rw [core_of_mid ⟨x.sign, x.exponent + 1, 0⟩ m
                (by show (0 : Int) ≤ x.exponent + 1 - m; omega)
                (by show x.exponent + 1 - m ≤ 51; omega)]
              simp [midRound_zero]
          · have hd2 : x.mantissa / 2 ^ (52 - (x.exponent - m).toNat) %
                2 ^ (x.exponent - m).toNat + 1 <
                2 ^ (x.exponent - m).toNat := by
              have := Nat.mod_lt (x.mantissa /
                2 ^ (52 - (x.exponent - m).toNat))
                (Nat.two_pow_pos (x.exponent - m).toNat)
              omega
            have hmr : midRound (x.exponent - m).toNat x.mantissa =
                (0, (x.mantissa / 2 ^ (52 - (x.exponent - m).toNat) %
                  2 ^ (x.exponent - m).toNat + 1) *
                  2 ^ (52 - (x.exponent - m).toNat)) := by
              unfold midRound
              rw [if_neg hbit, if_neg hmask]
            rw [hmr]
            simp only [add_zero]
            exact core_fix_of_d x.sign x.exponent m _ h0 h1 hd2


/-- Claim C6: get_closest_multiple_of_lambda is idempotent: for every
double x (decomposed sign, exponent at least -1023, mantissa below 2^52)
and every exponent m, when the first application succeeds with result y,
applying the function again to y with the same m returns y. -/
theorem get_closest_multiple_of_lambda_idempotent (x : F64) (m : Int)
    (hexp : -1023 ≤ x.exponent) (_hman : x.mantissa < 2 ^ 52) :
    ∀ y, get_closest_multiple_of_lambda x m = .ok y →
      get_closest_multiple_of_lambda y m = .ok y := by
  intro y h
  have hy : y = get_closest_multiple_of_lambda_core x m := by
    simpa [get_closest_multiple_of_lambda] using h.symm
  rw [hy, get_closest_multiple_of_lambda]
  exact congrArg Except.ok (core_idempotent x m hexp)

/-- Concrete instance for claim C6: rounding the double 0.76 with m = -1
gives 1.0, and rounding 1.0 again is a fixed point. -/
theorem get_closest_multiple_of_lambda_idempotent_witness :
    get_closest_multiple_of_lambda ⟨false, -1, 2341871806232658⟩ (-1) =
      .ok ⟨false, 0, 0⟩ ∧
    get_closest_multiple_of_lambda ⟨false, 0, 0⟩ (-1) =
      .ok ⟨false, 0, 0⟩ :=
  ⟨by decide, get_closest_multiple_of_lambda_idempotent
    ⟨false, -1, 2341871806232658⟩ (-1) (by decide) (by decide)
    ⟨false, 0, 0⟩ (by decide)⟩

/-- Claim C5 counterexample: the double 0.76 decomposes as sign 0,
exponent -1, mantissa 2341871806232658, and
get_closest_multiple_of_lambda(0.76, -1) evaluates to the double 1.0
(value 1), not 0.75 (value 3/4); the code matches its own unit test,
which expects 1.0 for this input. -/
theorem get_closest_multiple_of_lambda_s4_first_counterexample :
    get_closest_multiple_of_lambda ⟨false, -1, 2341871806232658⟩ (-1) =
      .ok ⟨false, 0, 0⟩ ∧
    toRat ⟨false, 0, 0⟩ = 1 ∧
    toRat ⟨false, -1, 2251799813685248⟩ = 3 / 4 ∧
    (1 : ℚ) ≠ 3 / 4 := by
  refine ⟨by decide, ?_, ?_, by norm_num⟩
  · simp only [toRat]
    rw [show pow2 0 = 1 from rfl]
    norm_num
  · simp only [toRat]
    rw [show pow2 (-1) = 1 / 2 from rfl]
    norm_num

/-- Claim C5 amended: on the S4 inputs,
get_closest_multiple_of_lambda(0.76, -1) is 1.0 (not 0.75),
get_closest_multiple_of_lambda(-0.26, -1) is -0.5, and
get_closest_multiple_of_lambda(30.01, 2) is 32.0.  Inputs are the exact
decompositions of the doubles 0.76, -0.26 and 30.01. -/
theorem get_closest_multiple_of_lambda_s4_values :
    (get_closest_multiple_of_lambda ⟨false, -1, 2341871806232658⟩ (-1) =
      .ok ⟨false, 0, 0⟩ ∧ toRat ⟨false, 0, 0⟩ = 1) ∧
    (get_closest_multiple_of_lambda ⟨true, -2, 180143985094820⟩ (-1) =
      .ok ⟨true, -1, 0⟩ ∧ toRat ⟨true, -1, 0⟩ = -(1 / 2)) ∧
    (get_closest_multiple_of_lambda ⟨false, 4, 3943464423716291⟩ 2 =
      .ok ⟨false, 5, 0⟩ ∧ toRat ⟨false, 5, 0⟩ = 32) := by
  refine ⟨⟨by decide, ?_⟩, ⟨by decide, ?_⟩, ⟨by decide, ?_⟩⟩
  · simp only [toRat]
    rw [show pow2 0 = 1 from rfl]
    norm_num
  · simp only [toRat]
    rw [show pow2 (-1) = 1 / 2 from rfl]
    norm_num
  · simp only [toRat]
    rw [show pow2 5 = 32 from rfl]
    norm_num

end Lambda


namespace Snapping

/-- Claim C4 counterexample: SnappingMechanism::evaluate does not
broadcast a length-1 bound array.  With two data columns (shape [1, 2]),
two sensitivities and two privacy usages, a single-element lower bound
array is rejected with the error below rather than broadcast, so the
claimed length-1-or-num-columns acceptance rule fails for the snapping
wrapper.  The kernel is the identity stub; execution never reaches it. -/
theorem snapping_bounds_length_counterexample :
    snappingEvaluate (fun v _ _ _ _ _ _ => .ok v) none
      [⟨1, 0⟩, ⟨1, 0⟩] ⟨[1, 2], [1, 2]⟩ ⟨[2], [1, 1]⟩
      ⟨[1], [0]⟩ ⟨[1], [10]⟩ none =
      .error "lower must share the same number of columns as data" := by
  decide

/-- Claim C4 amended: per-column bound arrays for
SnappingMechanism::evaluate are accepted only when their length equals
the number of data columns: whenever the earlier stages succeed and the
standardized lower bound vector length differs from the column count,
evaluate returns the bound-mismatch error (a length-1 bound array with
more than one data column is rejected, not broadcast). -/
theorem snapping_rejects_bound_length_mismatch
    (kernel : ℚ → ℚ → ℚ → ℚ → ℚ → Option ℚ → Bool → Except String ℚ)
    (pd : Option Validator.PrivacyDefinition)
    (usage : List Validator.PrivacyUsage)
    (data sensitivity lower upper : ArrM) (bp : Option ℚ)
    (us : List Validator.PrivacyUsage) (epsArr : ArrM) (nc : Nat)
    (lowV : ArrM)
    (h1 : spread_privacy_usage usage sensitivity.data.length = .ok us)
    (h2 : from_shape_vec data.shape (us.map (fun u => u.epsilon)) =
      .ok epsArr)
    (h3 : get_num_columns data = .ok nc)
    (h4 : to_nd lower 1 = .ok lowV)
    (h5 : nc ≠ lowV.data.length) :
    snappingEvaluate kernel pd usage data sensitivity lower upper bp =
      .error "lower must share the same number of columns as data" := by
  simp only [snappingEvaluate, bind, Except.bind, h1, h2, h3, h4]
  rw [if_pos h5]

/-- Concrete instance for claim C4 (amended): three data columns with a
two-element lower bound array. -/
theorem snapping_rejects_bound_length_mismatch_witness :
    snappingEvaluate (fun v _ _ _ _ _ _ => .ok v) none [⟨1, 0⟩]
      ⟨[1, 3], [1, 2, 3]⟩ ⟨[3], [1, 1, 1]⟩ ⟨[2], [0, 0]⟩ ⟨[2], [9, 9]⟩
      none =
      .error "lower must share the same number of columns as data" :=
  snapping_rejects_bound_length_mismatch (fun v _ _ _ _ _ _ => .ok v)
    none [⟨1, 0⟩] ⟨[1, 3], [1, 2, 3]⟩ ⟨[3], [1, 1, 1]⟩ ⟨[2], [0, 0]⟩
    ⟨[2], [9, 9]⟩ none [⟨1, 0⟩, ⟨1, 0⟩, ⟨1, 0⟩] ⟨[1, 3], [1, 1, 1]⟩ 3
    ⟨[2], [0, 0]⟩ (by decide) (by decide) (by decide) (by decide)
    (by decide)

end Snapping


namespace Impute

theorem sample_uniform_mem (lo hi u : ℚ) (h0 : 0 ≤ u) (h1 : u < 1)
    (hlt : lo < hi) :
    lo ≤ sample_uniform lo hi u ∧ sample_uniform lo hi u < hi := by
  unfold sample_uniform
  constructor
  · nlinarith
  · nlinarith

theorem imputeColumn_length (rng : Nat → ℚ) (lo hi : ℚ)
    (col : List FVal) (k : Nat) :
    (imputeColumn rng lo hi col k).1.length = col.length := by
  induction col generalizing k with
  | nil => rfl
  | cons c rest ih =>
    cases c with
    | nan => simp [imputeColumn, ih]
    | val q => simp [imputeColumn, ih]

theorem imputeColumn_keep (rng : Nat → ℚ) (lo hi : ℚ)
    (col : List FVal) (k i : Nat) (q : ℚ)
    (h : col.getD i .nan = .val q) :
    (imputeColumn rng lo hi col k).1.getD i .nan = .val q := by
  induction col generalizing k i with
  | nil => simp at h
  | cons c rest ih =>
    cases i with
    | zero =>
      cases c with
      | nan => simp [List.getD_cons_zero] at h
      | val r =>
        simp only [List.getD_cons_zero] at h
        simp [imputeColumn, List.getD_cons_zero, h]
    | succ i =>
      simp only [List.getD_cons_succ] at h
      cases c with
      | nan =>
        simp only [imputeColumn, List.getD_cons_succ]
        exact ih _ _ h
      | val r =>
        simp only [imputeColumn, List.getD_cons_succ]
        exact ih _ _ h

theorem imputeColumn_fill (rng : Nat → ℚ) (lo hi : ℚ)
    (hr : ∀ k, 0 ≤ rng k ∧ rng k < 1) (hlt : lo < hi)
    (col : List FVal) (k i : Nat) (hi2 : i < col.length)
    (h : col.getD i .nan = .nan) :
    ∃ q, (imputeColumn rng lo hi col k).1.getD i .nan = .val q ∧
      lo ≤ q ∧ q < hi := by
  induction col generalizing k i with
  | nil => simp at hi2
  | cons c rest ih =>
    cases i with
    | zero =>
      cases c with
      | nan =>
        refine ⟨sample_uniform lo hi (rng k), ?_,
          sample_uniform_mem lo hi (rng k) (hr k).1 (hr k).2 hlt⟩
        simp only [imputeColumn, List.getD_cons_zero]
      | val r => simp [List.getD_cons_zero] at h
    | succ i =>
      have hi3 : i < rest.length := by simpa using hi2
      simp only [List.getD_cons_succ] at h
      cases c with
      | nan =>
        obtain ⟨q, hq⟩ := ih (k + 1) i hi3 h
        refine ⟨q, ?_, hq.2⟩
        simp only [imputeColumn, List.getD_cons_succ]
        exact hq.1
      | val r =>
        obtain ⟨q, hq⟩ := ih k i hi3 h
        refine ⟨q, ?_, hq.2⟩
        simp only [imputeColumn, List.getD_cons_succ]
        exact hq.1

theorem standardize_length (xs ys : List ℚ) (n : Nat)
    (h : standardize_numeric_argument xs n = .ok ys) : ys.length = n := by
  unfold standardize_numeric_argument at h
  split at h
  · cases h
    simp
  · split at h
    · cases h
      assumption
    · exact Except.noConfusion h

theorem imputeColumns_spec (rng : Nat → ℚ)
    (hr : ∀ k, 0 ≤ rng k ∧ rng k < 1) :
    ∀ (cols : List (List FVal)) (lo hi : List ℚ) (k : Nat),
      lo.length = cols.length → hi.length = cols.length →
      (∀ j, j < cols.length → lo.getD j 0 < hi.getD j 0) →
      (imputeColumns rng cols lo hi k).length = cols.length ∧
      (∀ j, ((imputeColumns rng cols lo hi k).getD j []).length =
        (cols.getD j []).length) ∧
      (∀ j i q, (cols.getD j []).getD i .nan = .val q →
        ((imputeColumns rng cols lo hi k).getD j []).getD i .nan =
          .val q) ∧
      (∀ j i, j < cols.length → i < (cols.getD j []).length →
        (cols.getD j []).getD i .nan = .nan →
        ∃ q, ((imputeColumns rng cols lo hi k).getD j []).getD i .nan =
          .val q ∧ lo.getD j 0 ≤ q ∧ q < hi.getD j 0) := by
  intro cols
  induction cols with
  | nil =>
    intro lo hi k _ _ _
    refine ⟨rfl, ?_, ?_, ?_⟩
    · intro j
      rfl
    · intro j i q h
      simp at h
    · intro j i hj _ _
      simp at hj
  | cons c cs ih =>
    intro lo hi k hlo hhi hlt
    cases lo with
    | nil => simp at hlo
    | cons l ls =>
      cases hi with
      | nil => simp at hhi
      | cons h hs =>
        have hlo2 : ls.length = cs.length := by simpa using hlo
        have hhi2 : hs.length = cs.length := by simpa using hhi
        have hlt0 : l < h := by
          have := hlt 0 (by simp)
          simpa using this
        have hlt2 : ∀ j, j < cs.length → ls.getD j 0 < hs.getD j 0 := by
          intro j hj
          have := hlt (j + 1) (by simpa using Nat.succ_lt_succ hj)
          simpa using this
        obtain ⟨ihlen, ihcollen, ihkeep, ihfill⟩ :=
          ih ls hs (imputeColumn rng l h c k).2 hlo2 hhi2 hlt2
        simp only [imputeColumns]
        refine ⟨by simp [ihlen], ?_, ?_, ?_⟩
        · intro j
          cases j with
          | zero =>
            simp only [List.getD_cons_zero]
            exact imputeColumn_length rng l h c k
          | succ j =>
            simp only [List.getD_cons_succ]
            exact ihcollen j
        · intro j i q hkeep
          cases j with
          | zero =>
            simp only [List.getD_cons_zero] at hkeep ⊢
            exact imputeColumn_keep rng l h c k i q hkeep
          | succ j =>
            simp only [List.getD_cons_succ] at hkeep ⊢
            exact ihkeep j i q hkeep
        · intro j i hj hilen hnan
          cases j with
          | zero =>
            simp only [List.getD_cons_zero] at hilen hnan ⊢
            exact imputeColumn_fill rng l h hr hlt0 c k i hilen hnan
          | succ j =>
            simp only [List.getD_cons_succ] at hilen hnan ⊢
            exact ihfill j i (by simpa using hj) hilen hnan

/-- Claim C10: impute_float_uniform_arrayd modifies only NaN cells.  For
every data array (in gencolumns view) on which the call succeeds: the
number of lanes and every lane length are unchanged; every non-NaN cell
appears unchanged at its position; and every NaN cell is replaced by a
freshly drawn value lying in the corresponding standardized column range
[lower, upper), given that the uniform source draws from [0, 1) and each
column range is nonempty. -/
theorem impute_float_uniform_frame (rng : Nat → ℚ)
    (data out : List (List FVal)) (lower upper loS hiS : List ℚ)
    (hout : impute_float_uniform_arrayd rng data lower upper = .ok out)
    (hlo : standardize_numeric_argument lower data.length = .ok loS)
    (hhi : standardize_numeric_argument upper data.length = .ok hiS)
    (hrng : ∀ k, 0 ≤ rng k ∧ rng k < 1)
    (hlt : ∀ j, j < data.length → loS.getD j 0 < hiS.getD j 0) :
    out.length = data.length ∧
    (∀ j, (out.getD j []).length = (data.getD j []).length) ∧
    (∀ j i q, (data.getD j []).getD i .nan = .val q →
      (out.getD j []).getD i .nan = .val q) ∧
    (∀ j i, j < data.length → i < (data.getD j []).length →
      (data.getD j []).getD i .nan = .nan →
      ∃ q, (out.getD j []).getD i .nan = .val q ∧
        loS.getD j 0 ≤ q ∧ q < hiS.getD j 0) := by
  have hout2 : out = imputeColumns rng data loS hiS 0 := by
    unfold impute_float_uniform_arrayd at hout
    simp only [bind, Except.bind, hlo, hhi] at hout
    exact (Except.ok.injEq _ _).mp hout |>.symm
  subst hout2
  exact imputeColumns_spec rng hrng data loS hiS 0
    (standardize_length _ _ _ hlo) (standardize_length _ _ _ hhi) hlt

/-- Concrete instance for claim C10: a one-column array whose NaN cell
is replaced by the draw 5 from [0, 10) while the other cell is kept. -/
theorem impute_float_uniform_frame_witness :
    impute_float_uniform_arrayd (fun _ => 1 / 2)
      [[FVal.val 1, FVal.nan]] [0] [10] =
      .ok [[FVal.val 1, FVal.val 5]] ∧
    ([[FVal.val 1, FVal.val 5]].getD 0 []).getD 0 FVal.nan =
      FVal.val 1 ∧
    (∃ q, ([[FVal.val 1, FVal.val 5]].getD 0 []).getD 1 FVal.nan =
      FVal.val q ∧ (0 : ℚ) ≤ q ∧ q < 10) := by
  have hev : impute_float_uniform_arrayd (fun _ => 1 / 2)
      [[FVal.val 1, FVal.nan]] [0] [10] =
      .ok [[FVal.val 1, FVal.val 5]] := by
    norm_num [impute_float_uniform_arrayd, standardize_numeric_argument,
      bind, Except.bind, imputeColumns, imputeColumn, sample_uniform]
  have happ := impute_float_uniform_frame (fun _ => 1 / 2)
    [[FVal.val 1, FVal.nan]] [[FVal.val 1, FVal.val 5]] [0] [10]
    [0] [10] hev (by simp [standardize_numeric_argument])
    (by simp [standardize_numeric_argument])
    (fun _ => ⟨one_half_pos.le, one_half_lt_one⟩) (by decide)
  exact ⟨hev, happ.2.2.1 0 0 1 (by simp),
    happ.2.2.2 0 1 (by decide) (by decide) (by simp)⟩


end Impute
